import Mathlib

/-!
Verification of the BuildXL sandbox core against its specification.

Shallow embedding of the two source files:
  - src/Public/Src/Sandbox/Linux/bxl_observer.cpp
    (event framing `Send`/`SendReport`, path canonicalization `resolve_path`)
  - src/Public/Src/Sandbox/Windows/DetoursServices/SubstituteProcessExecution.cpp
    (`InjectShim`, `FindApplicationNameFromCommandLine`, `ShouldSubstituteShim`
     with its process-match loop and cl.exe compiler heuristic)

Conventions of the embedding:
  - Linux paths are `List Char`; Windows wide strings (`wchar_t*` /
    `std::wstring`) are `List Nat` of character codes, and raw file bytes are
    `List Nat` of byte values.
  - OS calls are oracles passed in as functions (`readlink` becomes
    `ρ : List Char → Option (List Char)`; reading a response file becomes
    `fileBytes : List Nat → List Nat`).
  - `_fatal` (which aborts the process) and C++ exceptions / undefined
    behaviour are modelled by `none` of an `Option` result; the model appends
    to the report channel only in the `some` branch, mirroring that in the
    source every fatal check precedes the write.
  - The potentially nonterminating canonicalization loop takes explicit fuel;
    `none` also stands for running out of fuel, so a `some` result is a run the
    C loop completes.
-/

namespace BxlObserver

/-- `PIPE_BUF` on Linux (limits.h): the atomic-write bound used by `Send`. -/
def PIPE_BUF : Nat := 4096

/-- `sizeof(uint)`: the length-prefix size used by `SendReport`. -/
def PrefixLength : Nat := 4

/-- The `FileOperation` enumeration is declared outside the repository files
(sandbox shared headers); `SendReport` only distinguishes
`kOpProcessTreeCompleted` from every other operation, so the model keeps that
constructor plus representative others. -/
inductive FileOperation where
  | kOpProcessStart
  | kOpProcessExit
  | kOpProcessTreeCompleted
  | kOpReadlink
  deriving DecidableEq, Repr

/-- The four bytes that `*(uint*)(buffer) = n` stores on a little-endian
machine. -/
def le32 (n : Nat) : List Nat :=
  [n % 256, n / 256 % 256, n / 65536 % 256, n / 16777216 % 256]

/-- Value of a 4-byte little-endian prefix (how the orchestrator reads it
back). -/
def dec32 (l : List Nat) : Nat :=
  match l with
  | [a, b, c, d] => a + 256 * b + 65536 * c + 16777216 * d
  | _ => 0

/-- `BxlObserver::Send(buf, bufsiz)`: fails fatally (`none`) when `bufsiz`
exceeds `PIPE_BUF`, before anything is opened or written; otherwise appends
the first `bufsiz` bytes of `buf` to the report channel in one atomic write
and returns `true`.  The open/write/close calls themselves are abstracted as
succeeding; their failure paths are also `_fatal` before/without a complete
write. -/
def Send (channel : List Nat) (buf : List Nat) (bufsiz : Nat) :
    Option (Bool × List Nat) :=
  if bufsiz > PIPE_BUF then none
  else some (true, channel ++ buf.take bufsiz)

/-- `BxlObserver::SendReport(report)`.  `msg` is the byte sequence that
`snprintf` would format from the report fields (`progname|pid|...|path\n`);
`snprintf` stores at most `maxMessageLength - 1` of those bytes into the
stack buffer (which is zero-initialized, size `PIPE_BUF`) and returns the
full would-be length `numWritten`.  The code fails fatally when
`numWritten == maxMessageLength`; otherwise it stores `numWritten` as a
4-byte little-endian prefix and sends `numWritten + PrefixLength` bytes of
the buffer. -/
def SendReport (channel : List Nat) (op : FileOperation) (msg : List Nat) :
    Option (Bool × List Nat) :=
  if op = FileOperation.kOpProcessTreeCompleted then
    some (true, channel)
  else
    let maxMessageLength := PIPE_BUF - PrefixLength
    let numWritten := msg.length
    if numWritten = maxMessageLength then none
    else
      let stored := msg.take (maxMessageLength - 1)
      let buffer := le32 (numWritten % 4294967296) ++ stored ++
        List.replicate (PIPE_BUF - PrefixLength - stored.length) 0
      Send channel buffer (numWritten + PrefixLength)

theorem le32_mod (n : Nat) : le32 (n % 4294967296) = le32 n := by
  simp only [le32, List.cons.injEq, and_true]
  omega

theorem dec32_le32 (n : Nat) (h : n < 4294967296) : dec32 (le32 n) = n := by
  simp only [le32, dec32]
  omega

theorem length_le32 (n : Nat) : (le32 n).length = PrefixLength := rfl

/-- C1: a record sent by `SendReport` is a 4-byte little-endian length prefix
whose decoded value is exactly the payload length, followed by that payload;
the whole record is at most `PIPE_BUF` bytes; and any event whose framed
record would exceed `PIPE_BUF` makes `SendReport`/`Send` fail fatally with
nothing appended to the channel (the fatal checks precede the write, and the
model appends only on success). -/
theorem c1_record_framing :
    ∀ (channel : List Nat) (op : FileOperation) (msg : List Nat),
    op ≠ FileOperation.kOpProcessTreeCompleted →
    (∀ r channel2, SendReport channel op msg = some (r, channel2) →
      channel2 = channel ++ le32 msg.length ++ msg ∧
      (le32 msg.length).length = PrefixLength ∧
      dec32 (le32 msg.length) = msg.length ∧
      PrefixLength + msg.length ≤ PIPE_BUF) ∧
    (PIPE_BUF < PrefixLength + msg.length →
      SendReport channel op msg = none) := by
  intro channel op msg hop
  constructor
  · intro r channel2 hsend
    simp only [SendReport, if_neg hop] at hsend
    by_cases hmax : msg.length = PIPE_BUF - PrefixLength
    · simp [hmax] at hsend
    · rw [if_neg hmax] at hsend
      simp only [Send] at hsend
      by_cases hbig : msg.length + PrefixLength > PIPE_BUF
      · rw [if_pos hbig] at hsend; exact absurd hsend (by simp)
      · rw [if_neg hbig] at hsend
        have hle : msg.length ≤ PIPE_BUF - PrefixLength - 1 := by
          simp only [PIPE_BUF, PrefixLength] at hmax hbig ⊢
          omega
        have hstored : msg.take (PIPE_BUF - PrefixLength - 1) = msg :=
          List.take_of_length_le hle
        have hchannel2 : channel2 =
            channel ++ (le32 (msg.length % 4294967296) ++ msg ++
              List.replicate (PIPE_BUF - PrefixLength - msg.length) 0).take
              (msg.length + PrefixLength) := by
          have := hsend
          simp only [hstored] at this
          exact (Prod.mk.injEq _ _ _ _ ▸ (Option.some.injEq _ _ ▸ this)).2.symm
        have htake : (le32 (msg.length % 4294967296) ++ msg ++
            List.replicate (PIPE_BUF - PrefixLength - msg.length) 0).take
              (msg.length + PrefixLength) =
            le32 msg.length ++ msg := by
          rw [le32_mod, List.append_assoc]
          have h4 : (le32 msg.length).length = 4 := rfl
          rw [show msg.length + PrefixLength = 4 + msg.length by
            simp [PrefixLength]; omega]
          rw [List.take_append_eq_append_take, h4]
          simp only [show 4 + msg.length - 4 = msg.length by omega]
          rw [List.take_of_length_le (by omega),
            List.take_append_eq_append_take]
          simp
        refine ⟨by rw [hchannel2, htake, List.append_assoc], rfl,
          dec32_le32 _ ?_, ?_⟩
        · simp only [PIPE_BUF, PrefixLength] at hle; omega
        · simp only [PIPE_BUF, PrefixLength] at hbig ⊢; omega
  · intro hbig
    simp only [SendReport, if_neg hop]
    by_cases hmax : msg.length = PIPE_BUF - PrefixLength
    · rw [if_pos hmax]
    · rw [if_neg hmax]
      simp only [Send, if_pos (show msg.length + PrefixLength > PIPE_BUF by
        simp only [PIPE_BUF, PrefixLength] at hbig ⊢; omega)]

/-- Witness for C1 at a concrete oversized event: a 4100-byte payload (framed
record 4104 > 4096) is rejected fatally, nothing appended. -/
theorem c1_record_framing_witness :
    SendReport [] FileOperation.kOpProcessStart (List.replicate 4100 120) =
      none :=
  (c1_record_framing [] FileOperation.kOpProcessStart
      (List.replicate 4100 120) (by decide)).2
    (by rw [List.length_replicate]; decide)

/-- C10: a report whose operation is `kOpProcessTreeCompleted` makes
`SendReport` return `true` immediately; the report channel is left exactly as
it was, so no record of this operation kind ever reaches the channel. -/
theorem c10_process_tree_completed_suppressed :
    ∀ (channel : List Nat) (msg : List Nat),
    SendReport channel FileOperation.kOpProcessTreeCompleted msg =
      some (true, channel) := by
  intro channel msg
  simp [SendReport]

end BxlObserver

namespace SubstituteProcessExecution

/-- Wide-string literal helper: a `wchar_t` string as its list of character
codes. -/
def w (s : String) : List Nat := s.data.map Char.toNat

/-- `towlower` as `_wcsicmp` applies it to the ASCII range. -/
def towlower (c : Nat) : Nat := if 65 ≤ c ∧ c ≤ 90 then c + 32 else c

/-- `_wcsicmp(a, b) == 0`: case-insensitive equality. -/
def wcsicmpEq (a b : List Nat) : Bool := a.map towlower == b.map towlower

/-- Does `pat` begin the list (used to express `wcsstr`/`strstr` hits)? -/
def begSeq {α : Type} [DecidableEq α] : List α → List α → Bool
  | [], _ => true
  | _ :: _, [] => false
  | a :: pa, b :: lb => a == b && begSeq pa lb

/-- Index of the first occurrence of `pat` (`wcsstr`/`strstr` as an offset). -/
def firstOccurIdx {α : Type} [DecidableEq α] (pat : List α) :
    List α → Option Nat
  | [] => if begSeq pat [] then some 0 else none
  | a :: rest =>
    if begSeq pat (a :: rest) then some 0
    else (firstOccurIdx pat rest).map (· + 1)

/-- `wcsstr(l, pat) != nullptr`. -/
def occursSeq {α : Type} [DecidableEq α] (pat l : List α) : Bool :=
  (firstOccurIdx pat l).isSome

/-- The loop of `CountMatches`: each hit advances past the match (`current +=
findLen`).  Fuel bounds the loop; `s.length + 1` is enough for every nonempty
`find` (the C loop does not terminate for an empty `find`, which no caller
passes). -/
def countMatchesGo {α : Type} [DecidableEq α] (find : List α) :
    Nat → List α → Nat
  | 0, _ => 0
  | fuel + 1, s =>
    match firstOccurIdx find s with
    | none => 0
    | some idx => 1 + countMatchesGo find fuel (s.drop (idx + find.length))

/-- `CountMatches(s, find, findLen)`: number of non-overlapping occurrences. -/
def countMatches {α : Type} [DecidableEq α] (s find : List α) : Nat :=
  countMatchesGo find (s.length + 1) s

/-- `std::wstring::find(c, start)` (also `find_first_of` of one character):
first index `≥ start` holding `c`, `none` for `npos`. -/
def idxOfFrom (c : Nat) (l : List Nat) (start : Nat) : Option Nat :=
  (firstOccurIdx [c] (l.drop start)).map (· + start)

/-- `wcsrchr` / `find_last_of` as an index: the last position holding `c`. -/
def lastIdx (c : Nat) : List Nat → Option Nat
  | [] => none
  | a :: rest =>
    match lastIdx c rest with
    | some k => some (k + 1)
    | none => if a = c then some 0 else none

/-- The whitespace set `L" \t\n\r"` of `trim_start`/`trim_end`. -/
def isSpaceW (c : Nat) : Bool := c == 32 || c == 9 || c == 10 || c == 13

/-- `trim_inplace`: strip that whitespace from both ends. -/
def trimList (l : List Nat) : List Nat :=
  ((l.dropWhile isSpaceW).reverse.dropWhile isSpaceW).reverse

/-- `ShimProcessMatch`: a configured `{processName, optional argument
substring}` pattern. -/
structure ShimProcessMatch where
  ProcessName : List Nat
  ArgumentMatch : Option (List Nat)
  deriving DecidableEq

/-- The globals `ShouldSubstituteShim` reads: `g_ProcessExecutionShimAllProcesses`,
`g_pShimProcessMatches`, and `g_SubstituteProcessExecutionPluginFunc`.  The
plugin is abstracted to its outcome for the call at hand: `some b` means a
plugin is configured and `CallPluginFunc(command, args, env, cwd) != 0`
evaluates to `b`; `none` means no plugin DLL. -/
structure ShimConfig where
  shimAllProcesses : Bool
  procMatches : List ShimProcessMatch
  plugin : Option Bool

/-- The process-name test of the match loop (lines 311-337): a shorter
`processName` must sit after a `'\\'` (code 92) as a suffix of `command`,
compared with `_wcsicmp`; an equal-length one must compare equal; a longer
one never matches. -/
def nameMatch (processName command : List Nat) : Bool :=
  if processName.length < command.length then
    (command.getD (command.length - processName.length - 1) 0 == 92) &&
      wcsicmpEq (command.drop (command.length - processName.length)) processName
  else if processName.length = command.length then
    wcsicmpEq processName command
  else false

/-- `CommandArgsContainMatch`: no configured substring always matches;
otherwise a case-sensitive `wcsstr`. -/
def CommandArgsContainMatch (commandArgs : List Nat)
    (argMatch : Option (List Nat)) : Bool :=
  match argMatch with
  | none => true
  | some m => occursSeq m commandArgs

/-- The `for` loop over `g_pShimProcessMatches`: stop at the first pattern
whose name matches and whose argument substring (when present) occurs. -/
def matchLoop (pMatches : List ShimProcessMatch)
    (command commandArgs : List Nat) : Bool :=
  match pMatches with
  | [] => false
  | pMatch :: rest =>
    if nameMatch pMatch.ProcessName command &&
        CommandArgsContainMatch commandArgs pMatch.ArgumentMatch then true
    else matchLoop rest command commandArgs

/-- Guard of line 354: `commandLen >= 6 && _wcsicmp(command + commandLen - 6,
L"cl.exe") == 0`. -/
def clTail (command : List Nat) : Bool :=
  decide (6 ≤ command.length) &&
    wcsicmpEq (command.drop (command.length - 6)) (w "cl.exe")

/-- The full trigger of the compiler heuristic: a process match hit and a
command whose last six characters are `cl.exe` case-insensitively. -/
def clHeuristicTriggered (pMatches : List ShimProcessMatch)
    (command commandArgs : List Nat) : Bool :=
  matchLoop pMatches command commandArgs && clTail command

/-- `wchar_t` values obtained by reinterpreting a little-endian byte buffer
(pairs low, high). -/
def decodeWide : List Nat → List Nat
  | b0 :: b1 :: rest => (b0 + 256 * b1) :: decodeWide rest
  | _ => []

def dotCpp : List Nat := w ".cpp"

def dotCSpace : List Nat := w ".c "

def dotIdl : List Nat := w ".idl"

end SubstituteProcessExecution

namespace SubstituteProcessExecution

/-- The cl.exe branch of `ShouldSubstituteShim` (lines 354-461), entered when
the heuristic is triggered.  `fileBytes` is the filesystem oracle giving the
raw bytes of the response file (`CreateFile(..., OPEN_ALWAYS, ...)` +
`ReadFile`; a missing file reads as empty).  Result: `(decision, the possibly
spliced commandArgs, replaceCommandNameForTrackedBuildEngine)`, or `none` for
the undefined behaviour on the no-BOM splice path, where
`commandArgs.replace(start, len, wideRsp, fileSize / 2)` copies `fileSize / 2`
wide characters from `wideRsp`, which is still the null pointer in that
branch (the converted UTF-8 string `rsp` that was just computed is unused).
The C has no terminator checks in `replace`, so only a zero count
(`fileSize / 2 == 0`) avoids reading through the null pointer. -/
def clHeuristic (fileBytes : List Nat → List Nat) (minParallelism : Int)
    (commandArgs : List Nat) : Option (Bool × List Nat × Bool) :=
  let baseInputs : Int :=
    (countMatches commandArgs dotCpp : Int) +
    (countMatches commandArgs dotCSpace : Int) +
    (countMatches commandArgs dotIdl : Int)
  match idxOfFrom 64 commandArgs 0 with
  | none =>
    -- no '@': no response file was read (pText stays null), no splice
    let numInputs := if baseInputs < 1 then 1 else baseInputs
    if numInputs ≥ minParallelism then some (true, commandArgs, true)
    else some (false, commandArgs, true)
  | some rspStart =>
    -- parse the @-token: @"path" (quoted) or @path (to the next space/end)
    let pr : List Nat × Nat :=
      if commandArgs.getD (rspStart + 1) 0 == 34 then
        match idxOfFrom 34 commandArgs (rspStart + 2) with
        | some closeQ =>
          ((commandArgs.drop (rspStart + 2)).take (closeQ - (rspStart + 2)),
            closeQ + 1)
        | none =>
          -- find returned npos: substr clamps to the end of the string, and
          -- responseFileArgEnd becomes npos + 1 = 0 by size_t wraparound
          (commandArgs.drop (rspStart + 2), 0)
      else
        let e := (idxOfFrom 32 commandArgs (rspStart + 1)).getD
          commandArgs.length
        ((commandArgs.drop (rspStart + 1)).take (e - (rspStart + 1)), e)
    let rspEnd := pr.2
    let bytes := fileBytes pr.1
    let fileSize := bytes.length
    let bom := 2 ≤ fileSize ∧ bytes.getD 0 0 = 255 ∧ bytes.getD 1 0 = 254
    -- pText is the file bytes with two appended nulls; wideRsp reinterprets
    -- pText + 2 as wchar_t*.  strstr/wcsstr stop at the first null.
    let wideAll := decodeWide (bytes.drop 2 ++ [0, 0])
    let rspInputs : Int :=
      if bom then
        (countMatches (wideAll.takeWhile (· ≠ 0)) (w ".cpp") : Int) +
        (countMatches (wideAll.takeWhile (· ≠ 0)) (w ".c ") : Int) +
        (countMatches (wideAll.takeWhile (· ≠ 0)) (w ".idl") : Int)
      else
        (countMatches (bytes.takeWhile (· ≠ 0)) (w ".cpp") : Int) +
        (countMatches (bytes.takeWhile (· ≠ 0)) (w ".c ") : Int) +
        (countMatches (bytes.takeWhile (· ≠ 0)) (w ".idl") : Int)
    let numInputs0 := baseInputs + rspInputs
    let numInputs := if numInputs0 < 1 then 1 else numInputs0
    if numInputs ≥ minParallelism then
      -- wstring::replace(rspStart, rspEnd - rspStart, src, count); the
      -- size_t count clamps to the string's end
      let spliceLen := min
        (if rspStart ≤ rspEnd then rspEnd - rspStart else commandArgs.length)
        (commandArgs.length - rspStart)
      if bom then
        some (true,
          commandArgs.take rspStart ++ wideAll.take (fileSize / 2 - 1) ++
            commandArgs.drop (rspStart + spliceLen), true)
      else if fileSize / 2 = 0 then
        some (true,
          commandArgs.take rspStart ++ commandArgs.drop (rspStart + spliceLen),
          true)
      else none
    else some (false, commandArgs, true)

/-- `ShouldSubstituteShim(command, commandArgs, ...)` (lines 280-465).
Result: `(shim decision, commandArgs after any response-file splice,
replaceCommandNameForTrackedBuildEngine)`; `none` for the undefined
behaviour inside the heuristic's splice. -/
def ShouldSubstituteShim (cfg : ShimConfig) (fileBytes : List Nat → List Nat)
    (minParallelism : Int) (command commandArgs : List Nat) :
    Option (Bool × List Nat × Bool) :=
  if cfg.procMatches = [] then
    match cfg.plugin with
    | some filterMatch =>
      some ((filterMatch && !cfg.shimAllProcesses) ||
        (!filterMatch && cfg.shimAllProcesses), commandArgs, false)
    | none => some (cfg.shimAllProcesses, commandArgs, false)
  else
    let foundMatch := matchLoop cfg.procMatches command commandArgs
    let filterMatch := cfg.plugin.getD cfg.shimAllProcesses
    if cfg.shimAllProcesses then
      some (!foundMatch && !filterMatch, commandArgs, false)
    else if clHeuristicTriggered cfg.procMatches command commandArgs then
      clHeuristic fileBytes minParallelism commandArgs
    else some (foundMatch || filterMatch, commandArgs, false)

/-- `InjectShim` (lines 22-102), reduced to the two values it passes to
`Real_CreateProcessW`: `(lpApplicationName, lpCommandLine)`.  The command
line is `"<command>" <args>`.  `lpApplicationName` is always the local
`shimWithChangedFileName`, which starts out as the empty `wstring` and is
only assigned (shim directory + original command's file name) in the
`replaceCommandNameForTrackedBuildEngine` branch; the local
`shimCommandLine`, initialized to `g_substituteProcessExecutionShimPath`,
is never passed. -/
def InjectShim (shimPath command commandArgs : List Nat) (replace : Bool) :
    List Nat × List Nat :=
  let fullCommandLine := 34 :: (command ++ (34 :: 32 :: commandArgs))
  let applicationName :=
    if replace then
      let commandFileNameStartIndex :=
        match lastIdx 92 command with
        | some k => k + 1
        | none => 0
      let shimFileNameStart :=
        match lastIdx 92 shimPath with
        | some k => k + 1
        | none => 0
      shimPath.take shimFileNameStart ++ command.drop commandFileNameStartIndex
    else []
  (applicationName, fullCommandLine)

/-- `std::wstring::substr(pos)`: throws `std::out_of_range` (`none`) when
`pos > size()`. -/
def wsubstr (l : List Nat) (pos : Nat) : Option (List Nat) :=
  if pos > l.length then none else some (l.drop pos)

/-- `FindApplicationNameFromCommandLine` (lines 132-199): split a raw command
line into `(command, commandArgs)`; `none` models an escaping
`std::out_of_range` from `substr`. -/
def FindApplicationNameFromCommandLine (line : List Nat) :
    Option (List Nat × List Nat) :=
  if line = [] then some ([], [])
  else if line.getD 0 0 == 34 then
    match idxOfFrom 34 line 1 with
    | none => some (trimList (line.drop 1), [])
    | some closeQ =>
      if closeQ = line.length - 1 then
        some (trimList ((line.drop 1).take (line.length - 2)), [])
      else
        let noQuoteCommand := (line.drop 1).take (closeQ - 1)
        let spaceIdx := (idxOfFrom 32 line (closeQ + 1)).getD line.length
        let command := trimList (noQuoteCommand ++
          (line.drop (closeQ + 1)).take (spaceIdx - (closeQ + 1)))
        match wsubstr line (spaceIdx + 1) with
        | none => none
        | some rest => some (command, trimList rest)
  else
    let spaceIdx := (idxOfFrom 32 line 0).getD line.length
    let command := line.take spaceIdx
    match wsubstr line (spaceIdx + 1) with
    | none => none
    | some rest => some (command, trimList rest)

end SubstituteProcessExecution

namespace SubstituteProcessExecution

/-- C7: the process-name test of the match loop holds exactly when the claim
says — equal length with case-insensitive equality, or a strictly shorter
name preceded in the command by a directory separator (`'\\'`, code 92) and
equal case-insensitively to the command's trailing suffix — and on the
claim's four concrete examples `cmd.exe` matches `c:\windows\CMD.EXE` and
`cmd.exe` but neither `notcmd.exe` nor `cmd.exe.bak`. -/
theorem c7_name_match_characterization :
    (∀ processName command : List Nat,
      nameMatch processName command = true ↔
        ((processName.length = command.length ∧
            processName.map towlower = command.map towlower) ∨
          (processName.length < command.length ∧
            command.getD (command.length - processName.length - 1) 0 = 92 ∧
            (command.drop (command.length - processName.length)).map towlower =
              processName.map towlower))) ∧
    nameMatch (w "cmd.exe") (w "c:\\windows\\CMD.EXE") = true ∧
    nameMatch (w "cmd.exe") (w "cmd.exe") = true ∧
    nameMatch (w "cmd.exe") (w "notcmd.exe") = false ∧
    nameMatch (w "cmd.exe") (w "cmd.exe.bak") = false := by
  refine ⟨?_, by decide, by decide, by decide, by decide⟩
  intro p c
  by_cases h1 : p.length < c.length
  · simp only [nameMatch, if_pos h1, Bool.and_eq_true, beq_iff_eq, wcsicmpEq]
    constructor
    · rintro ⟨ha, hb⟩
      exact Or.inr ⟨h1, ha, hb⟩
    · rintro (⟨heq, -⟩ | ⟨-, ha, hb⟩)
      · omega
      · exact ⟨ha, hb⟩
  · by_cases h2 : p.length = c.length
    · simp only [nameMatch, if_neg h1, if_pos h2, wcsicmpEq, beq_iff_eq]
      constructor
      · intro hmap
        exact Or.inl ⟨h2, hmap⟩
      · rintro (⟨-, hmap⟩ | ⟨hlt, -, -⟩)
        · exact hmap
        · omega
    · simp only [nameMatch, if_neg h1, if_neg h2]
      constructor
      · intro hfalse
        exact absurd hfalse (by simp)
      · rintro (⟨heq, -⟩ | ⟨hlt, -, -⟩)
        · omega
        · omega

/-- C3 (the code against the claim): with
`replaceCommandNameForTrackedBuildEngine = false`, `InjectShim` passes the
empty string — not the configured shim path — as `lpApplicationName` to
`Real_CreateProcessW` (the local holding the shim path is dead); with the
flag true it passes the shim's directory plus the command's base name, as
the claim states. -/
theorem c3_application_name_eval :
    (InjectShim (w "C:\\shim\\SubstituteShim.exe") (w "C:\\w\\cmd.exe")
        (w "/c dir") false).1 = [] ∧
    w "C:\\shim\\SubstituteShim.exe" ≠ ([] : List Nat) ∧
    (InjectShim (w "C:\\shim\\SubstituteShim.exe") (w "C:\\w\\cmd.exe")
        (w "/c dir") true).1 = w "C:\\shim\\cmd.exe" := by
  refine ⟨by decide, by decide, by decide⟩

/-- C9 (the code against the claim): on a nonempty command line with no
leading quote and no space — `cmd.exe` — the no-quote branch sets
`spaceDelimiterIndex` to the full length and then calls
`substr(spaceDelimiterIndex + 1)` with a position one past the end,
which throws `std::out_of_range` (`none`) instead of returning the whole
line with empty arguments.  A line that does contain a space splits
normally. -/
theorem c9_no_space_split_eval :
    FindApplicationNameFromCommandLine (w "cmd.exe") = none ∧
    FindApplicationNameFromCommandLine (w "cmd.exe /c") =
      some (w "cmd.exe", w "/c") := by
  refine ⟨by decide, by decide⟩

end SubstituteProcessExecution

namespace SubstituteProcessExecution

/-- C4 (the code against the claim) at `cl.exe @r.rsp` with the response
file holding `a.cpp b.cpp c.cpp` (no byte-order mark): `numInputs = 3`, so
with `minParallelism = 2` the claim demands "shim with the response-file
contents spliced into commandArgs"; the code instead reaches
`commandArgs.replace(start, len, wideRsp, fileSize / 2)` with `wideRsp`
still null (undefined behaviour, modelled `none`) — the converted string
`rsp` it just built is never used.  With `minParallelism = 4`
(`numInputs = 3 < 4`) the "do not shim" half behaves as claimed: no shim,
arguments untouched. -/
theorem c4_threshold_and_splice_eval :
    ShouldSubstituteShim ⟨false, [⟨w "cl.exe", none⟩], none⟩
        (fun p => if p = w "r.rsp" then w "a.cpp b.cpp c.cpp" else []) 2
        (w "cl.exe") (w "@r.rsp") = none ∧
    countMatches (w "a.cpp b.cpp c.cpp") (w ".cpp") = 3 ∧
    ShouldSubstituteShim ⟨false, [⟨w "cl.exe", none⟩], none⟩
        (fun p => if p = w "r.rsp" then w "a.cpp b.cpp c.cpp" else []) 4
        (w "cl.exe") (w "@r.rsp") = some (false, w "@r.rsp", true) := by
  refine ⟨by decide, by decide, by decide⟩

/-- C5 counterexample: a process match hits `C:\t\Tracker.exe` whose
arguments contain `cl.exe`, so the claim says the compiler heuristic runs
with its counting window at the position of `cl.exe` (here index 0, one
`.cpp` input, far below `minParallelism = 100`, hence "do not shim"); the
code has no `Tracker.exe` case at all — the heuristic guard is false, no
window is analysed, and the decision is the plain opt-in
`foundMatch || filterMatch = true`. -/
theorem c5_tracker_counterexample :
    ShouldSubstituteShim ⟨false, [⟨w "Tracker.exe", none⟩], none⟩
        (fun _ => []) 100 (w "C:\\t\\Tracker.exe") (w "cl.exe x.cpp") =
      some (true, w "cl.exe x.cpp", false) ∧
    matchLoop [⟨w "Tracker.exe", none⟩] (w "C:\\t\\Tracker.exe")
        (w "cl.exe x.cpp") = true ∧
    occursSeq (w "cl.exe") (w "cl.exe x.cpp") = true ∧
    clHeuristicTriggered [⟨w "Tracker.exe", none⟩] (w "C:\\t\\Tracker.exe")
        (w "cl.exe x.cpp") = false ∧
    countMatches (w "cl.exe x.cpp") (w ".cpp") = 1 := by
  refine ⟨by decide, by decide, by decide, by decide, by decide⟩

/-- C5 amended: the compiler heuristic is triggered exactly when a process
match hits a command whose last six characters are `cl.exe`
case-insensitively (there is no `Tracker.exe` case), and its counting
window is always the whole `commandArgs` (index 0): when the trigger is
false the decision is the plain opt-in rule with arguments untouched, and
when it is true the result is the heuristic applied to all of
`commandArgs`. -/
theorem c5_trigger_amended :
    ∀ (cfg : ShimConfig) (fileBytes : List Nat → List Nat)
      (minParallelism : Int) (command commandArgs : List Nat),
    cfg.shimAllProcesses = false → cfg.procMatches ≠ [] →
    (clHeuristicTriggered cfg.procMatches command commandArgs = false →
      ShouldSubstituteShim cfg fileBytes minParallelism command commandArgs =
        some (matchLoop cfg.procMatches command commandArgs ||
          cfg.plugin.getD false, commandArgs, false)) ∧
    (clHeuristicTriggered cfg.procMatches command commandArgs = true →
      ShouldSubstituteShim cfg fileBytes minParallelism command commandArgs =
        clHeuristic fileBytes minParallelism commandArgs) := by
  intro cfg fileBytes minParallelism command commandArgs hall hne
  constructor
  · intro htrig
    simp only [ShouldSubstituteShim, if_neg hne, hall, htrig]
    simp
  · intro htrig
    simp only [ShouldSubstituteShim, if_neg hne, hall, htrig]
    simp

/-- Witness for the amended C5 at a concrete no-trigger input: command
`b.exe` matches nothing and does not end in `cl.exe`, so the decision is
`false` and the arguments come back untouched. -/
theorem c5_trigger_amended_witness :
    ShouldSubstituteShim ⟨false, [⟨w "a.exe", none⟩], none⟩ (fun _ => []) 0
      (w "b.exe") (w "x") = some (false, w "x", false) :=
  ((c5_trigger_amended ⟨false, [⟨w "a.exe", none⟩], none⟩ (fun _ => []) 0
      (w "b.exe") (w "x") rfl (by decide)).1 (by decide)).trans (by decide)

/-- C6 counterexample: `shimAllProcesses = false`, non-empty match list, the
process match hits (`cl.exe`), the plugin returns false — the §4.8 table row
demands shim iff `processMatch OR pluginMatch = true`; but because the
matched command ends in `cl.exe` the compiler heuristic intercepts, counts
one input against `minParallelism = 5`, and the code declines to shim. -/
theorem c6_polarity_counterexample :
    ShouldSubstituteShim ⟨false, [⟨w "cl.exe", none⟩], some false⟩
        (fun _ => []) 5 (w "cl.exe") (w "a.cpp") =
      some (false, w "a.cpp", true) ∧
    matchLoop [⟨w "cl.exe", none⟩] (w "cl.exe") (w "a.cpp") = true := by
  refine ⟨by decide, by decide⟩

/-- C6 amended: with a configured plugin returning `b`, the decision equals
the §4.8 polarity table — empty matches: `b` when not shimming all, `!b`
when shimming all; non-empty matches: `!processMatch && !b` when shimming
all, and `processMatch || b` when not — except that in the last row, when
the process match hits a command ending in `cl.exe` case-insensitively, the
compiler heuristic decides instead. -/
theorem c6_polarity_amended :
    ∀ (cfg : ShimConfig) (fileBytes : List Nat → List Nat)
      (minParallelism : Int) (command commandArgs : List Nat) (b : Bool),
    cfg.plugin = some b →
    (cfg.procMatches = [] → cfg.shimAllProcesses = false →
      ShouldSubstituteShim cfg fileBytes minParallelism command commandArgs =
        some (b, commandArgs, false)) ∧
    (cfg.procMatches = [] → cfg.shimAllProcesses = true →
      ShouldSubstituteShim cfg fileBytes minParallelism command commandArgs =
        some (!b, commandArgs, false)) ∧
    (cfg.procMatches ≠ [] → cfg.shimAllProcesses = true →
      ShouldSubstituteShim cfg fileBytes minParallelism command commandArgs =
        some (!(matchLoop cfg.procMatches command commandArgs) && !b,
          commandArgs, false)) ∧
    (cfg.procMatches ≠ [] → cfg.shimAllProcesses = false →
      clHeuristicTriggered cfg.procMatches command commandArgs = false →
      ShouldSubstituteShim cfg fileBytes minParallelism command commandArgs =
        some (matchLoop cfg.procMatches command commandArgs || b,
          commandArgs, false)) := by
  intro cfg fileBytes minParallelism command commandArgs b hplugin
  refine ⟨?_, ?_, ?_, ?_⟩
  · intro hemp hall
    simp [ShouldSubstituteShim, hemp, hall, hplugin]
  · intro hemp hall
    simp [ShouldSubstituteShim, hemp, hall, hplugin]
  · intro hne hall
    simp [ShouldSubstituteShim, if_neg hne, hall, hplugin]
  · intro hne hall htrig
    simp [ShouldSubstituteShim, if_neg hne, hall, hplugin, htrig]

/-- Witness for the amended C6 at a concrete input of the first row: empty
match list, plugin returns true, `shimAllProcesses = false` — shim. -/
theorem c6_polarity_amended_witness :
    ShouldSubstituteShim ⟨false, [], some true⟩ (fun _ => []) 0 (w "b.exe")
      (w "x") = some (true, w "x", false) :=
  (c6_polarity_amended ⟨false, [], some true⟩ (fun _ => []) 0 (w "b.exe")
      (w "x") true rfl).1 rfl rfl

end SubstituteProcessExecution

namespace BxlObserver

/-- `find_prev_slash(pStr)`: scan from position `p - 1` downward for `'/'`;
the C loop relies on the leading `'/'` of an absolute path, the model
returns 0 when no slash is found. -/
def prevSlash (l : List Char) : Nat → Nat
  | 0 => 0
  | q + 1 => if l.get? q = some '/' then q else prevSlash l q

/-- The `while (true)` loop of `BxlObserver::resolve_path(fullpath,
followFinalSymlink)`, one fuel per iteration; `none` means the given fuel is
exhausted (the C loop has no bound of its own).  The buffer is `path`, the
cursor `pFullpath` is the index `i`, `path.get? i = none` plays `*pFullpath
== '\0'`, and `ρ` is the `readlink` oracle: `ρ prefixPath = some target`
when the prefix is a symbolic link (the C also reports a `ReadLink` event
here, which nothing below needs).  The guard cases mirror lines 311-337
(`//`, `/./`, `/../` via `shift_left`), the probe and substitution lines
340-388. -/
def resolveLoop (ρ : List Char → Option (List Char)) (follow : Bool) :
    Nat → List Char → Nat → Option (List Char)
  | 0, _, _ => none
  | fuel + 1, path, i =>
    if path.get? i = some '/' ∧ i - prevSlash path i - 1 = 0 then
      -- "//": shift_left(pFullpath + 1, 1)
      resolveLoop ρ follow fuel (path.take i ++ path.drop (i + 1)) i
    else if path.get? i = some '/' ∧ i - prevSlash path i - 1 = 1 ∧
        path.get? (i - 1) = some '.' then
      -- "/./": shift_left(pFullpath + 1, 2); --pFullpath
      resolveLoop ρ follow fuel (path.take (i - 1) ++ path.drop (i + 1)) (i - 1)
    else if path.get? i = some '/' ∧ i - prevSlash path i - 1 = 2 ∧
        path.get? (i - 1) = some '.' ∧ path.get? (i - 2) = some '.' then
      -- "/../": also drop the previous segment unless already at the root
      resolveLoop ρ follow fuel
        (path.take ((if 0 < prevSlash path i then
          prevSlash path (prevSlash path i) else prevSlash path i) + 1) ++
          path.drop (i + 1))
        ((if 0 < prevSlash path i then
          prevSlash path (prevSlash path i) else prevSlash path i) + 1)
    else
      match (if path.get? i = some '/' ∨ (path.get? i = none ∧ follow) then
          ρ (path.take i) else none) with
      | none =>
        if path.get? i = none then some path
        else resolveLoop ρ follow fuel path (i + 1)
      | some target =>
        -- the remainder is appended to the target, avoiding a double slash
        -- at the seam; an absolute target overwrites fullpath and restarts
        -- at the beginning, a relative one replaces the last directory
        -- component
        if target.head? = some '/' then
          resolveLoop ρ follow fuel
            (if target.getLast? = some '/' ∧ (path.drop i).head? = some '/'
              then target ++ (path.drop i).tail
              else target ++ path.drop i) 1
        else
          resolveLoop ρ follow fuel
            (path.take (prevSlash path i + 1) ++
              (if target.getLast? = some '/' ∧ (path.drop i).head? = some '/'
                then target ++ (path.drop i).tail
                else target ++ path.drop i))
            (prevSlash path i + 1)

/-- `BxlObserver::resolve_path`: the loop started with `pFullpath = fullpath
+ 1`. -/
def resolve_path (ρ : List Char → Option (List Char)) (follow : Bool)
    (fuel : Nat) (path : List Char) : Option (List Char) :=
  resolveLoop ρ follow fuel path 1

end BxlObserver

namespace SubstituteProcessExecution

theorem begSeq_exists {α : Type} [DecidableEq α] :
    ∀ (pat l : List α), begSeq pat l = true → ∃ t, l = pat ++ t := by
  intro pat
  induction pat with
  | nil => intro l _; exact ⟨l, rfl⟩
  | cons a pa ih =>
    intro l h
    cases l with
    | nil => exact absurd h (by simp [begSeq])
    | cons b lb =>
      simp only [begSeq, Bool.and_eq_true, beq_iff_eq] at h
      obtain ⟨t, ht⟩ := ih lb h.2
      exact ⟨t, by rw [h.1, ht]; rfl⟩

theorem occursSeq_exists {α : Type} [DecidableEq α] :
    ∀ (pat l : List α), occursSeq pat l = true → ∃ s t, l = s ++ pat ++ t := by
  intro pat l
  induction l with
  | nil =>
    intro h
    simp only [occursSeq, firstOccurIdx] at h
    by_cases hb : begSeq pat ([] : List α) = true
    · obtain ⟨t, ht⟩ := begSeq_exists pat [] hb
      exact ⟨[], t, ht⟩
    · simp [hb] at h
  | cons a rest ih =>
    intro h
    simp only [occursSeq, firstOccurIdx] at h
    by_cases hb : begSeq pat (a :: rest) = true
    · obtain ⟨t, ht⟩ := begSeq_exists pat (a :: rest) hb
      exact ⟨[], t, ht⟩
    · rw [if_neg hb] at h
      have : occursSeq pat rest = true := by
        simp only [occursSeq]
        cases hfi : firstOccurIdx pat rest with
        | none => rw [hfi] at h; simp at h
        | some k => rfl
      obtain ⟨s, t, hst⟩ := ih this
      exact ⟨a :: s, t, by rw [hst]; rfl⟩

end SubstituteProcessExecution

namespace BxlObserver

open SubstituteProcessExecution in
/-- The claim's "contains" on character lists, reusing the generic substring
search. -/
def occursIn (pat l : List Char) : Bool := occursSeq pat l

theorem occursIn_exists (pat l : List Char) (h : occursIn pat l = true) :
    ∃ s t, l = s ++ pat ++ t :=
  SubstituteProcessExecution.occursSeq_exists pat l h

theorem get?_middle {α : Type} (s pat t : List α) (k : Nat)
    (hk : k < pat.length) :
    (s ++ pat ++ t).get? (s.length + k) = pat.get? k := by
  rw [List.append_assoc, List.get?_append_right (by omega),
    Nat.add_sub_cancel_left]
  exact List.get?_append hk

theorem get?_some_lt {α : Type} (l : List α) (n : Nat) (c : α)
    (h : l.get? n = some c) : n < l.length := by
  by_contra hle
  rw [List.get?_eq_none.mpr (by omega)] at h
  exact absurd h (by simp)

/-- The segment ending at the slash at position `p` is neither empty nor `.`
nor `..` — exactly the negations of the three rewrite guards of
`resolve_path`. -/
def okSeg (l : List Char) (p : Nat) : Prop :=
  ¬(p - prevSlash l p - 1 = 0) ∧
  ¬(p - prevSlash l p - 1 = 1 ∧ l.get? (p - 1) = some '.') ∧
  ¬(p - prevSlash l p - 1 = 2 ∧ l.get? (p - 1) = some '.' ∧
    l.get? (p - 2) = some '.')

/-- Loop invariant of `resolveLoop`: every slash strictly left of the cursor
closes a proper segment. -/
def Clean (l : List Char) (i : Nat) : Prop :=
  ∀ p, 1 ≤ p → p < i → l.get? p = some '/' → okSeg l p

theorem clean_one (l : List Char) : Clean l 1 := by
  intro p h1 hp hs
  exact absurd (h1.trans_lt hp) (by omega)

theorem clean_anti (l : List Char) (i j : Nat) (hji : j ≤ i)
    (hC : Clean l i) : Clean l j :=
  fun p h1 hp hs => hC p h1 (hp.trans_le hji) hs

theorem prevSlash_lt (l : List Char) : ∀ p, 1 ≤ p → prevSlash l p < p := by
  intro p
  induction p with
  | zero => omega
  | succ q ih =>
    intro _
    simp only [prevSlash]
    split
    · omega
    · rcases Nat.eq_zero_or_pos q with h0 | h1
      · subst h0; simp [prevSlash]
      · exact Nat.lt_succ_of_lt (ih h1)

theorem prevSlash_spec (l : List Char) :
    ∀ p, prevSlash l p = 0 ∨ l.get? (prevSlash l p) = some '/' := by
  intro p
  induction p with
  | zero => exact Or.inl rfl
  | succ q ih =>
    simp only [prevSlash]
    split
    · next h => exact Or.inr h
    · exact ih

theorem prevSlash_congr (l₁ l₂ : List Char) :
    ∀ p, (∀ q, q < p → l₁.get? q = l₂.get? q) →
    prevSlash l₁ p = prevSlash l₂ p := by
  intro p
  induction p with
  | zero => intro _; rfl
  | succ q ih =>
    intro h
    simp only [prevSlash]
    rw [h q (by omega)]
    split
    · rfl
    · exact ih (fun r hr => h r (by omega))

theorem okSeg_congr (l₁ l₂ : List Char) (p : Nat)
    (h : ∀ q, q < p → l₁.get? q = l₂.get? q) (hs : okSeg l₁ p) :
    okSeg l₂ p := by
  rcases Nat.eq_zero_or_pos p with h0 | h1
  · subst h0
    exact absurd (by simp [prevSlash]) hs.1
  · have hps := prevSlash_congr l₁ l₂ p h
    have h1' : l₁.get? (p - 1) = l₂.get? (p - 1) := h _ (by omega)
    have h2' : l₁.get? (p - 2) = l₂.get? (p - 2) := h _ (by omega)
    unfold okSeg at hs ⊢
    rw [← hps, ← h1', ← h2']
    exact hs

/-- Rewriting the buffer from position `k ≥ i` on preserves the invariant
below `i`. -/
theorem clean_transfer (l suffix : List Char) (k i : Nat) (hik : i ≤ k)
    (hk : k ≤ l.length) (hC : Clean l i) : Clean (l.take k ++ suffix) i := by
  intro p h1 hpi hsl
  have hq : ∀ q, q < k → (l.take k ++ suffix).get? q = l.get? q := by
    intro q hqk
    rw [List.get?_append (by rw [List.length_take]; omega),
      List.get?_take hqk]
  have hpk : p < k := hpi.trans_le hik
  have hsl' : l.get? p = some '/' := by rw [← hq p hpk]; exact hsl
  exact okSeg_congr l _ p (fun q hq' => (hq q (hq'.trans hpk)).symm)
    (hC p h1 hpi hsl')

/-- Stepping the cursor over a slash whose segment passed all three guards
extends the invariant. -/
theorem clean_extend (l : List Char) (i : Nat) (hC : Clean l i)
    (hok : l.get? i = some '/' → okSeg l i) : Clean l (i + 1) := by
  intro p h1 hp hs
  rcases Nat.lt_or_ge p i with h | h
  · exact hC p h1 h hs
  · have hpi : p = i := by omega
    subst hpi
    exact hok hs

/-- Every terminating run of the `resolve_path` loop started in a clean
state ends with the whole buffer clean. -/
theorem resolveLoop_clean :
    ∀ (fuel : Nat) (ρ : List Char → Option (List Char)) (follow : Bool)
      (path : List Char) (i : Nat) (out : List Char),
    Clean path i → resolveLoop ρ follow fuel path i = some out →
    Clean out out.length := by
  intro fuel
  induction fuel with
  | zero =>
    intro ρ follow path i out _ h
    exact absurd h (by simp [resolveLoop])
  | succ n ih =>
    intro ρ follow path i out hC hrun
    rw [resolveLoop] at hrun
    by_cases h1 : path.get? i = some '/' ∧ i - prevSlash path i - 1 = 0
    · rw [if_pos h1] at hrun
      have hi : i < path.length := get?_some_lt path i '/' h1.1
      exact ih ρ follow _ _ out
        (clean_transfer path _ i i le_rfl (by omega) hC) hrun
    · rw [if_neg h1] at hrun
      by_cases h2 : path.get? i = some '/' ∧ i - prevSlash path i - 1 = 1 ∧
          path.get? (i - 1) = some '.'
      · rw [if_pos h2] at hrun
        have hi : i < path.length := get?_some_lt path i '/' h2.1
        exact ih ρ follow _ _ out
          (clean_transfer path _ (i - 1) (i - 1) le_rfl (by omega)
            (clean_anti path i (i - 1) (by omega) hC)) hrun
      · rw [if_neg h2] at hrun
        by_cases h3 : path.get? i = some '/' ∧ i - prevSlash path i - 1 = 2 ∧
            path.get? (i - 1) = some '.' ∧ path.get? (i - 2) = some '.'
        · rw [if_pos h3] at hrun
          have hi : i < path.length := get?_some_lt path i '/' h3.1
          have hji : prevSlash path i < i := by
            have := h3.2.1
            omega
          have hj2 : (if 0 < prevSlash path i then
              prevSlash path (prevSlash path i) else prevSlash path i) ≤
              prevSlash path i := by
            split
            · next hpos => exact le_of_lt (prevSlash_lt path _ hpos)
            · exact le_rfl
          exact ih ρ follow _ _ out
            (clean_transfer path _ _ _ le_rfl (by omega)
              (clean_anti path i _ (by omega) hC)) hrun
        · rw [if_neg h3] at hrun
          split at hrun
          · -- readlink saw no symlink (or was not consulted)
            by_cases h4 : path.get? i = none
            · rw [if_pos h4] at hrun
              have hout : path = out := by
                have := hrun
                simpa using this
              subst hout
              exact clean_anti path i path.length
                (by rw [List.get?_eq_none] at h4; omega) hC
            · rw [if_neg h4] at hrun
              refine ih ρ follow _ _ out (clean_extend path i hC ?_) hrun
              intro hsl
              exact ⟨fun h0 => h1 ⟨hsl, h0⟩,
                fun hb => h2 ⟨hsl, hb.1, hb.2⟩,
                fun hc => h3 ⟨hsl, hc.1, hc.2.1, hc.2.2⟩⟩
          · -- a symlink target was substituted
            split at hrun
            · exact ih ρ follow _ _ out (clean_one _) hrun
            · rcases Nat.eq_zero_or_pos (prevSlash path i) with hj0 | hjpos
              · rw [hj0] at hrun
                exact ih ρ follow _ _ out
                  (by
                    rcases le_or_lt 1 path.length with hl | hl
                    · exact clean_transfer path _ 1 1 le_rfl hl
                        (clean_one path)
                    · intro p hp1 hp hsl
                      have : p < (path.take 1 ++ _).length :=
                        get?_some_lt _ p '/' hsl
                      exact absurd (hp1.trans_lt hp) (by omega)) hrun
              · have hsl : path.get? (prevSlash path i) = some '/' := by
                  rcases prevSlash_spec path i with h0 | hx
                  · omega
                  · exact hx
                have hjlen : prevSlash path i < path.length :=
                  get?_some_lt path _ '/' hsl
                have hji : prevSlash path i < i := by
                  by_contra hge
                  have : i = 0 ∨ prevSlash path i < i := by
                    rcases Nat.eq_zero_or_pos i with hi0 | hipos
                    · exact Or.inl hi0
                    · exact Or.inr (prevSlash_lt path i hipos)
                  rcases this with hi0 | hlt
                  · subst hi0; simp [prevSlash] at hjpos
                  · exact hge hlt
                exact ih ρ follow _ _ out
                  (clean_transfer path _ _ _ le_rfl (by omega)
                    (clean_anti path i _ (by omega) hC)) hrun

end BxlObserver

namespace BxlObserver

theorem prevSlash_succ (l : List Char) (q : Nat) :
    prevSlash l (q + 1) = if l.get? q = some '/' then q else prevSlash l q :=
  rfl

theorem clean_no_slash_slash (out : List Char) (hC : Clean out out.length) :
    occursIn ('/' :: '/' :: []) out = false := by
  cases h : occursIn ('/' :: '/' :: []) out
  · rfl
  · obtain ⟨s, t, heq⟩ := occursIn_exists _ _ h
    have hp0 : out.get? s.length = some '/' := by
      rw [heq]
      simpa using get?_middle s ('/' :: '/' :: []) t 0 (by decide)
    have hp1 : out.get? (s.length + 1) = some '/' := by
      rw [heq]
      exact get?_middle s ('/' :: '/' :: []) t 1 (by decide)
    have hlen : s.length + 1 < out.length := by
      rw [heq]
      simp only [List.length_append, List.length_cons, List.length_nil]
      omega
    have hok := hC (s.length + 1) (by omega) hlen hp1
    have hps : prevSlash out (s.length + 1) = s.length := by
      rw [prevSlash_succ, if_pos hp0]
    exact absurd (hok.1 (by rw [hps]; omega)) not_false

theorem clean_no_slash_dot_slash (out : List Char)
    (hC : Clean out out.length) :
    occursIn ('/' :: '.' :: '/' :: []) out = false := by
  cases h : occursIn ('/' :: '.' :: '/' :: []) out
  · rfl
  · obtain ⟨s, t, heq⟩ := occursIn_exists _ _ h
    have hp0 : out.get? s.length = some '/' := by
      rw [heq]
      simpa using get?_middle s ('/' :: '.' :: '/' :: []) t 0 (by decide)
    have hp1 : out.get? (s.length + 1) = some '.' := by
      rw [heq]
      exact get?_middle s ('/' :: '.' :: '/' :: []) t 1 (by decide)
    have hp2 : out.get? (s.length + 2) = some '/' := by
      rw [heq]
      exact get?_middle s ('/' :: '.' :: '/' :: []) t 2 (by decide)
    have hlen : s.length + 2 < out.length := by
      rw [heq]
      simp only [List.length_append, List.length_cons, List.length_nil]
      omega
    have hok := hC (s.length + 2) (by omega) hlen hp2
    have hps : prevSlash out (s.length + 2) = s.length := by
      have e1 : s.length + 2 = s.length + 1 + 1 := rfl
      rw [e1, prevSlash_succ, if_neg (by rw [hp1]; simp), prevSlash_succ,
        if_pos hp0]
    have e2 : s.length + 2 - 1 = s.length + 1 := rfl
    exact absurd (hok.2.1 ⟨by rw [hps]; omega, by rw [e2]; exact hp1⟩)
      not_false

theorem clean_no_slash_dotdot_slash (out : List Char)
    (hC : Clean out out.length) :
    occursIn ('/' :: '.' :: '.' :: '/' :: []) out = false := by
  cases h : occursIn ('/' :: '.' :: '.' :: '/' :: []) out
  · rfl
  · obtain ⟨s, t, heq⟩ := occursIn_exists _ _ h
    have hp0 : out.get? s.length = some '/' := by
      rw [heq]
      simpa using get?_middle s ('/' :: '.' :: '.' :: '/' :: []) t 0
        (by decide)
    have hp1 : out.get? (s.length + 1) = some '.' := by
      rw [heq]
      exact get?_middle s ('/' :: '.' :: '.' :: '/' :: []) t 1 (by decide)
    have hp2 : out.get? (s.length + 2) = some '.' := by
      rw [heq]
      exact get?_middle s ('/' :: '.' :: '.' :: '/' :: []) t 2 (by decide)
    have hp3 : out.get? (s.length + 3) = some '/' := by
      rw [heq]
      exact get?_middle s ('/' :: '.' :: '.' :: '/' :: []) t 3 (by decide)
    have hlen : s.length + 3 < out.length := by
      rw [heq]
      simp only [List.length_append, List.length_cons, List.length_nil]
      omega
    have hok := hC (s.length + 3) (by omega) hlen hp3
    have hps : prevSlash out (s.length + 3) = s.length := by
      have e1 : s.length + 3 = s.length + 2 + 1 := rfl
      have e2 : s.length + 2 = s.length + 1 + 1 := rfl
      rw [e1, prevSlash_succ, if_neg (by rw [hp2]; simp), e2, prevSlash_succ,
        if_neg (by rw [hp1]; simp), prevSlash_succ, if_pos hp0]
    have e3 : s.length + 3 - 1 = s.length + 2 := rfl
    have e4 : s.length + 3 - 2 = s.length + 1 := rfl
    exact absurd (hok.2.2 ⟨by rw [hps]; omega, by rw [e3]; exact hp2,
      by rw [e4]; exact hp1⟩) not_false

/-- C2 counterexample: canonicalizing the absolute path `/a/.` with no
symlinks anywhere terminates and returns `/a/.` unchanged — the `.` segment
survives because the `/./` rewrite only fires when another `/` follows it,
so the output does contain a trailing `/.` segment, which the claim
forbids. -/
theorem c2_trailing_dot_counterexample :
    resolve_path (fun _ => none) true 10 ('/' :: 'a' :: '/' :: '.' :: []) =
      some ('/' :: 'a' :: '/' :: '.' :: []) ∧
    List.drop 2 ('/' :: 'a' :: '/' :: '.' :: []) = ('/' :: '.' :: []) := by
  refine ⟨by decide, by decide⟩

/-- C2 amended: whenever `resolve_path` terminates, its output contains no
`//`, no `/./` and no `/../` anywhere as substrings (so no empty, `.` or
`..` segment that is followed by a further slash); a bare trailing `/.` or
`/..` segment at the very end of the path may remain. -/
theorem c2_no_interior_dot_segments :
    ∀ (ρ : List Char → Option (List Char)) (follow : Bool) (fuel : Nat)
      (path out : List Char),
    resolve_path ρ follow fuel path = some out →
    occursIn ('/' :: '/' :: []) out = false ∧
    occursIn ('/' :: '.' :: '/' :: []) out = false ∧
    occursIn ('/' :: '.' :: '.' :: '/' :: []) out = false := by
  intro ρ follow fuel path out hrun
  have hC : Clean out out.length :=
    resolveLoop_clean fuel ρ follow path 1 out (clean_one path) hrun
  exact ⟨clean_no_slash_slash out hC, clean_no_slash_dot_slash out hC,
    clean_no_slash_dotdot_slash out hC⟩

/-- Witness for the amended C2 at a concrete run: `/a/b` with no symlinks
resolves to itself and indeed contains none of the three patterns. -/
theorem c2_no_interior_dot_segments_witness :
    occursIn ('/' :: '/' :: []) ('/' :: 'a' :: '/' :: 'b' :: []) = false ∧
    occursIn ('/' :: '.' :: '/' :: []) ('/' :: 'a' :: '/' :: 'b' :: []) =
      false ∧
    occursIn ('/' :: '.' :: '.' :: '/' :: [])
      ('/' :: 'a' :: '/' :: 'b' :: []) = false :=
  c2_no_interior_dot_segments (fun _ => none) true 10
    ('/' :: 'a' :: '/' :: 'b' :: []) ('/' :: 'a' :: '/' :: 'b' :: [])
    (by decide)

/-- A cyclic `readlink` oracle: `/a` is a symbolic link to itself. -/
def cycOracle : List Char → Option (List Char) :=
  fun p => if p = ('/' :: 'a' :: []) then some ('/' :: 'a' :: []) else none

/-- C8 (the code against the claim): with `/a` a symlink to `/a`,
`resolve_path "/a/b"` substitutes the target, restarts, reads the link
again, and so on forever — for every iteration bound the run is still
unfinished, so the code neither bounds the number of link expansions nor
fails with `LoopDetected` (the source marks this with
`TODO: break symlink cycles`). -/
theorem c8_cycle_diverges :
    ∀ fuel : Nat,
    resolve_path cycOracle true fuel ('/' :: 'a' :: '/' :: 'b' :: []) =
      none := by
  have key : ∀ n : Nat,
      resolveLoop cycOracle true n ('/' :: 'a' :: '/' :: 'b' :: []) 1 =
        none ∧
      resolveLoop cycOracle true n ('/' :: 'a' :: '/' :: 'b' :: []) 2 =
        none := by
    intro n
    induction n with
    | zero => exact ⟨rfl, rfl⟩
    | succ m ih =>
      constructor
      · have hstep : resolveLoop cycOracle true (m + 1)
            ('/' :: 'a' :: '/' :: 'b' :: []) 1 =
            resolveLoop cycOracle true m
              ('/' :: 'a' :: '/' :: 'b' :: []) 2 := rfl
        rw [hstep]
        exact ih.2
      · have hstep : resolveLoop cycOracle true (m + 1)
            ('/' :: 'a' :: '/' :: 'b' :: []) 2 =
            resolveLoop cycOracle true m
              ('/' :: 'a' :: '/' :: 'b' :: []) 1 := rfl
        rw [hstep]
        exact ih.1
  intro fuel
  exact (key fuel).1

end BxlObserver
